import Mathlib

/-!
# Verification of the solidtime browser extension core logic

Shallow embedding of the extension's URL parsing, token refresh, HTTP
retry, OAuth callback, PKCE challenge, DOM injection and timer logic,
with theorems checking the natural-language specification against it.

String/URL matching is embedded over `List Char`; regular expressions
from the source are translated into the deterministic parsers they
denote on the anchored patterns used by the code.
-/

namespace Solidtime

/-! ## Generic character-list helpers (regex building blocks) -/

/-- Splits a path at the first `'/'`: returns the (possibly empty) run of
non-`'/'` characters and the remainder (which starts with `'/'` if
nonempty).  This is what a greedy `[^/]+` group consumes when followed by
a `/` literal. -/
def takeSeg : List Char → List Char × List Char
  | [] => ([], [])
  | c :: cs =>
    if c = '/' then ([], c :: cs)
    else
      let (s, t) := takeSeg cs
      (c :: s, t)

/-- Strips a literal character sequence from the front of a list,
returning the remainder, or `none` when the literal is not a prefix. -/
def stripLit : List Char → List Char → Option (List Char)
  | [], cs => some cs
  | _ :: _, [] => none
  | l :: ls, c :: cs => if c = l then stripLit ls cs else none

/-- `[A-Z]` character class from the source's regexes. -/
def isUpperAZ (c : Char) : Bool := 'A' ≤ c && c ≤ 'Z'

/-- `[0-9]` (`\d`) character class from the source's regexes. -/
def isDigit09 (c : Char) : Bool := '0' ≤ c && c ≤ '9'

/-- Splits off the leading maximal run of `[A-Z]` characters. -/
def upperRun : List Char → List Char × List Char
  | [] => ([], [])
  | c :: cs =>
    if isUpperAZ c then
      let (s, t) := upperRun cs
      (c :: s, t)
    else ([], c :: cs)

/-- `String.includes` from JavaScript: `needle` occurs as a contiguous
substring of `hay`. -/
def containsSub (hay needle : List Char) : Bool :=
  match hay with
  | [] => (stripLit needle []).isSome
  | _ :: rest => (stripLit needle hay).isSome || containsSub rest needle

/-! ## Issue Identity Resolver: Linear (`src/entrypoints/utils/linear.ts`) -/

/-- `isLinearIssuePage`: the code tests the regex
`/^\/[^\/]+\/issue\/[^\/]+/` against `window.location.pathname`: a leading
`'/'`, a nonempty workspace segment, the literal `/issue/`, and a
nonempty key segment. -/
def isLinearIssuePathChars (cs : List Char) : Bool :=
  match cs with
  | '/' :: rest =>
    let (ws, r1) := takeSeg rest
    if ws = [] then false
    else
      match stripLit ("/issue/".toList) r1 with
      | none => false
      | some r2 =>
        let (key, _) := takeSeg r2
        key ≠ []
  | _ => false

/-- `isLinearIssuePage` on a pathname given as a `String`. -/
def isLinearIssuePage (pathname : String) : Bool :=
  isLinearIssuePathChars pathname.toList

/-- The match of `/^\/([^\/]+)\/issue\/([^\/]+)(?:\/(.+))?/` against the
pathname: captures the workspace, the issue id segment, and (optionally)
everything after the following `'/'` (the greedy `.+` slug, which may
itself contain slashes and must be nonempty). -/
def linearPathMatch (cs : List Char) :
    Option (List Char × List Char × Option (List Char)) :=
  match cs with
  | '/' :: rest =>
    let (ws, r1) := takeSeg rest
    if ws = [] then none
    else
      match stripLit ("/issue/".toList) r1 with
      | none => none
      | some r2 =>
        let (key, r3) := takeSeg r2
        if key = [] then none
        else
          match r3 with
          | '/' :: t => if t = [] then some (ws, key, none) else some (ws, key, some t)
          | _ => some (ws, key, none)
  | _ => none

/-- The `issueId.match` step against regex `^([A-Z]+)` followed by a
dash: the leading maximal
uppercase run when it is nonempty and immediately followed by `'-'`;
otherwise the code falls back to `""`. -/
def linearProjectKey (key : List Char) : List Char :=
  let (run, rest) := upperRun key
  match rest with
  | '-' :: _ => if run = [] then [] else run
  | _ => []

/-- `LinearIssueInfo` record from `linear.ts`. -/
structure LinearIssueInfo where
  issueId : String
  issueTitle : String
  projectKey : String
  fullUrl : String
deriving DecidableEq

/-- `getLinearIssueInfo` from `linear.ts`: guard on `isLinearIssuePage`,
match the path pattern, take the project key from the issue id, and
default the title capture to `""` (`issueTitle || ""`). -/
def getLinearIssueInfo (pathname href : String) : Option LinearIssueInfo :=
  if !isLinearIssuePage pathname then none
  else
    match linearPathMatch pathname.toList with
    | none => none
    | some (_ws, key, title?) =>
      some { issueId := String.mk key
             issueTitle := String.mk (title?.getD [])
             projectKey := String.mk (linearProjectKey key)
             fullUrl := href }

/-! ## Issue Identity Resolver: Jira (`src/entrypoints/utils/jira.ts`) -/

/-- The anchored part of `/^\/browse\/[A-Z]+-\d+/`: after the literal
`/browse/`, a nonempty uppercase run, a dash, and at least one digit.
(The greedy `[A-Z]+` cannot backtrack usefully: shortening the run leaves
an uppercase character where the dash must match.) -/
def browseKeyTest (cs : List Char) : Bool :=
  match stripLit ("/browse/".toList) cs with
  | none => false
  | some rest =>
    let (run, r1) := upperRun rest
    match r1 with
    | '-' :: d :: _ => run ≠ [] && isDigit09 d
    | _ => false

/-- `/boards/` followed by at least one digit starts at this position. -/
def boardsHere (cs : List Char) : Bool :=
  match stripLit ("/boards/".toList) cs with
  | some (d :: _) => isDigit09 d
  | _ => false

/-- Some strict suffix of the list (at least one character is consumed
by the greedy `.+`) starts with `/boards/` and a digit. -/
def hasBoardsAfterOne : List Char → Bool
  | [] => false
  | _ :: rest => boardsHere rest || hasBoardsAfterOne rest

/-- `boardUrlPattern` test `/^\/jira\/software\/projects\/.+\/boards\/\d+/`:
the literal prefix, then at least one character, then `/boards/` and a
digit (the backtracking regex succeeds iff some such split exists). -/
def jiraBoardTest (cs : List Char) : Bool :=
  match stripLit ("/jira/software/projects/".toList) cs with
  | none => false
  | some rest => hasBoardsAfterOne rest

/-- `isJiraIssuePage` from `jira.ts`: board view (board path pattern and
`selectedIssue=` occurring in `location.search`) or browse view. -/
def isJiraIssuePage (pathname search : String) : Bool :=
  (jiraBoardTest pathname.toList && containsSub search.toList ("selectedIssue=".toList))
    || browseKeyTest pathname.toList

/-! ## Issue Identity Resolver: Plane (`src/entrypoints/utils/plane.ts`) -/

/-- `projectIssuesPattern` `/^\/[^\/]+\/projects\/[^\/]+\/issues\//`:
leading slash, nonempty workspace segment, literal `/projects/`,
nonempty project segment, and the literal `/issues/` (with its trailing
slash required). -/
def planeProjectIssuesTest (cs : List Char) : Bool :=
  match cs with
  | '/' :: rest =>
    let (ws, r1) := takeSeg rest
    if ws = [] then false
    else
      match stripLit ("/projects/".toList) r1 with
      | none => false
      | some r2 =>
        let (proj, r3) := takeSeg r2
        if proj = [] then false
        else (stripLit ("/issues/".toList) r3).isSome
  | _ => false

/-- `browsePattern` `/^\/[^\/]+\/browse\/[A-Z]+-\d+/`: leading slash,
nonempty workspace segment, then the same browse-key shape as Jira. -/
def planeBrowseTest (cs : List Char) : Bool :=
  match cs with
  | '/' :: rest =>
    let (ws, r1) := takeSeg rest
    if ws = [] then false else browseKeyTest r1
  | _ => false

/-- `isPlaneIssuePage` from `plane.ts`: project-issues view or browse view. -/
def isPlaneIssuePage (pathname : String) : Bool :=
  planeProjectIssuesTest pathname.toList || planeBrowseTest pathname.toList

/-! ## Token Store & Refresh Coordinator (`src/entrypoints/utils/oauth.ts`)

One browser context (process) is modelled by the module-level state the
code manipulates: the two reactive token cells, the two durable-storage
keys, and the module-level `refreshPromise` slot.  A pending promise is
identified by a promise id (`Nat`); the single-threaded JavaScript
runtime executes the synchronous prelude of each `refreshAccessToken`
call atomically, so N concurrent callers are N sequential calls. -/

structure OAuthProcState where
  accessToken : String
  refreshToken : String
  /-- durable `access_token` key (`none` = key removed) -/
  storedAccess : Option String
  /-- durable `refresh_token` key (`none` = key removed) -/
  storedRefresh : Option String
  /-- the module-level `refreshPromise` slot (`some pid` = in flight) -/
  refreshPromise : Option Nat
deriving DecidableEq

/-- Immediate outcome of one `refreshAccessToken()` call. -/
inductive RefreshOutcome where
  /-- the call returned the pending promise with this id -/
  | pending (pid : Nat)
  /-- the call threw synchronously (`No refresh token available`) -/
  | thrown
deriving DecidableEq

/-- `refreshAccessToken` (oauth.ts lines 49-96), up to the point where
the caller holds the returned promise: if a promise is in flight, return
it unchanged; else if the refresh token cell is empty, clear both cells,
remove both durable keys and throw; else install a fresh promise whose
body performs the one network exchange.  The third component counts
network exchanges initiated by this call. -/
def refreshAccessToken (s : OAuthProcState) (freshPid : Nat) :
    OAuthProcState × RefreshOutcome × Nat :=
  match s.refreshPromise with
  | some pid => (s, .pending pid, 0)
  | none =>
    if s.refreshToken = "" then
      ({ s with accessToken := "", refreshToken := "",
                storedAccess := none, storedRefresh := none },
       .thrown, 0)
    else
      ({ s with refreshPromise := some freshPid }, .pending freshPid, 1)

/-- A sequence of `refreshAccessToken()` calls in one process, each with
its own candidate fresh promise id; returns the final state, the outcome
observed by each caller, and the total number of network exchanges
initiated. -/
def refreshCallsSeq (s : OAuthProcState) :
    List Nat → OAuthProcState × List RefreshOutcome × Nat
  | [] => (s, [], 0)
  | pid :: pids =>
    let (s1, r, c) := refreshAccessToken s pid
    let (s2, rs, cs) := refreshCallsSeq s1 pids
    (s2, r :: rs, c + cs)

/-! ## HTTP client wrapper (`src/entrypoints/utils/api.ts`)

The axios response interceptor, modelled on the response to one request.
A request carries the `_retry` marker; the retried request re-enters the
interceptor with the marker set. -/

/-- A raw HTTP response: success with a value, or an error status. -/
inductive HttpResp where
  | ok (v : Nat)
  | err (status : Nat)
deriving DecidableEq

/-- What the caller of the wrapped client finally observes. -/
inductive ApiOutcome where
  /-- resolved response -/
  | success (v : Nat)
  /-- `Promise.reject(error)` with the response error of this status -/
  | failed (status : Nat)
  /-- `Promise.reject(refreshError)`: the token refresh itself failed -/
  | refreshFailed
deriving DecidableEq

/-- The interceptor on a response whose request already has `_retry`
set: it resolves successes and rejects every error (the `401 &&
!originalRequest._retry` guard is false), so no second refresh/retry
can happen. -/
def interceptRetried : HttpResp → ApiOutcome
  | .ok v => .success v
  | .err s => .failed s

/-- Result of running the interceptor on the first response of a
request: the final outcome, and the bearer token used on the retried
request, if a retry was issued. -/
structure InterceptResult where
  outcome : ApiOutcome
  retriedWith : Option String
deriving DecidableEq

/-- The interceptor (api.ts lines 15-38) on the first response of a
request (`_retry` unset).  `refreshResult` is the outcome of
`refreshAccessToken()` followed by reading `accessToken.value`
(`some tok` on success, `none` when the refresh rejected); `send`
issues the original request again with the given Authorization bearer
token and yields its response, which re-enters the interceptor with
`_retry` now set. -/
def interceptFirst (resp : HttpResp) (refreshResult : Option String)
    (send : String → HttpResp) : InterceptResult :=
  match resp with
  | .ok v => ⟨.success v, none⟩
  | .err s =>
    if s = 401 then
      match refreshResult with
      | some tok => ⟨interceptRetried (send tok), some tok⟩
      | none => ⟨.refreshFailed, none⟩
    else ⟨.failed s, none⟩

/-! ## OAuth PKCE callback handling (background script) -/

/-- Query parameters extracted from the OAuth callback URL;
`none` models `URLSearchParams.get` returning `null`. -/
structure CallbackParams where
  code : Option String
  state : Option String
  error : Option String
deriving DecidableEq

/-- Durable token storage as seen by the background flow. -/
structure TokenStorage where
  accessTok : Option String
  refreshTok : Option String
deriving DecidableEq

/-- The response sent back to the popup via `sendResponse`. -/
inductive OAuthFlowResponse where
  | success (accessTok refreshTok : String)
  | failure
deriving DecidableEq

/-- JavaScript truthiness of a nullable string (`if (error)`,
`!code`): `null` and `""` are falsy. -/
def truthyStr : Option String → Bool
  | none => false
  | some s => s ≠ ""

/-- The callback branch of the `START_OAUTH_FLOW` handler (background
script lines 76-131): reject when the `error` parameter is truthy; then
reject when the returned `state` differs from the stored `oauthState` or
`code` is falsy; then exchange the code (`exchange = none` models a
non-ok token response) and only on a successful exchange write both
tokens to durable storage. -/
def handleOAuthCallback (oauthState : String) (p : CallbackParams)
    (exchange : Option (String × String)) (st : TokenStorage) :
    OAuthFlowResponse × TokenStorage :=
  if truthyStr p.error then (.failure, st)
  else if p.state ≠ some oauthState || !truthyStr p.code then (.failure, st)
  else
    match exchange with
    | none => (.failure, st)
    | some (a, r) =>
      (.success a r, { accessTok := some a, refreshTok := some r })

/-! ## DOM Injection Controller (`linear.ts` / `jira.ts` / `plane.ts`)

The document is abstracted to the number of elements carrying the fixed
per-platform control id (`getElementById` finds one iff the count is
nonzero; `.remove()` deletes one).  The events a tab can experience are
the operations the code performs on that id. -/

/-- Events affecting the injected control of one tab.  `inject b` is
`injectTimeTrackingSection` / `injectJiraTimeTrackingButton` with
`skipExistingCheck = b`; `removeControl` is the platform
`remove...` helper; `hostRemoves` is the host page deleting the
control; `navigate b` is `handlePageLoad` on a page where
`isIssuePage` returns `b`. -/
inductive DomEvent where
  | inject (skipExisting : Bool)
  | removeControl
  | hostRemoves
  | navigate (issuePage : Bool)
deriving DecidableEq

/-- Effect of one event on the number of control elements in the
document, following the code: injection returns early when the element
exists and the check is not skipped; with the check skipped it removes
the existing element before appending the fresh one; removal deletes
the element if present; `handlePageLoad` removes the control on
non-issue pages and injects (without skip) on issue pages. -/
def controlStep (n : Nat) : DomEvent → Nat
  | .inject skip =>
    if n ≠ 0 then (if skip then n - 1 + 1 else n) else 1
  | .removeControl => n - 1
  | .hostRemoves => n - 1
  | .navigate issue =>
    if issue then (if n ≠ 0 then n else 1) else n - 1

/-! ## Timer State Synchronizer (`src/entrypoints/utils/timeEntries.ts`)

Timestamps are embedded as `Nat` instants (the code stamps ISO-8601 UTC
strings from a monotone wall clock); the empty-string sentinel for
`start` and the `null` for `end` are both `none`. -/

/-- A time entry as manipulated locally.  `endT` embeds the `end`
field (a Lean keyword); `memberId` carries the `member_id` of a
`CreateTimeEntryBody` and is absent on plain entries. -/
structure TimeEntryM where
  id : String
  description : Option String
  start : Option Nat
  endT : Option Nat
  projectId : Option String
  taskId : Option String
  tags : List String
  billable : Bool
  organizationId : Option String
  memberId : Option String
deriving DecidableEq

/-- `emptyTimeEntry` from timeEntries.ts (empty strings and nulls). -/
def emptyTimeEntry : TimeEntryM :=
  { id := "", description := none, start := none, endT := none,
    projectId := none, taskId := none, tags := [], billable := false,
    organizationId := some "", memberId := none }

/-- One entry of the `useMyMemberships` data consumed by `stopTimer`. -/
structure MembershipM where
  id : String
  organizationOrgId : String
deriving DecidableEq

/-- Local state touched by `useTimer` and the create/stop mutations:
the two storage-backed entries, the selection, the
`['currentTimeEntry']` query-cache datum written by `onMutate`, and the
argument lists passed to the stop/create mutations (most recent
first). -/
structure TimerLocalState where
  currentTimeEntry : TimeEntryM
  lastTimeEntry : TimeEntryM
  currentMembershipId : Option String
  currentOrganizationId : Option String
  cacheCurrent : Option TimeEntryM
  sentStops : List TimeEntryM
  sentCreates : List TimeEntryM
deriving DecidableEq

/-- The local effects of `useTimeEntryStopMutation().mutateAsync e`:
`onMutate` resets the `['currentTimeEntry']` cache to the empty entry,
and the variables `e` are handed to the mutation (recorded in
`sentStops`). -/
def stopMutationLocal (s : TimerLocalState) (e : TimeEntryM) : TimerLocalState :=
  { s with cacheCurrent := some emptyTimeEntry, sentStops := e :: s.sentStops }

/-- The local effects of `useTimeEntryCreateMutation().mutate body`:
`onMutate` writes the optimistic entry — the variables plus
`organization_id := currentOrganizationId.value` and a freshly
generated uuid as `id` — into the `['currentTimeEntry']` cache. -/
def createMutationLocal (s : TimerLocalState) (body : TimeEntryM)
    (freshUuid : String) : TimerLocalState :=
  let optimistic := { body with
                      id := freshUuid
                      organizationId := s.currentOrganizationId }
  { s with cacheCurrent := some optimistic, sentCreates := body :: s.sentCreates }

/-- `stopTimer` from `useTimer` (timeEntries.ts lines 207-218): capture
the current entry, switch the membership selection to the membership
whose organization matches the stopped entry, clear the local current
entry, and hand the stopped entry with `end := endTime or now` to the
stop mutation. -/
def stopTimer (s : TimerLocalState) (memberships : List MembershipM)
    (endTime : Option Nat) (now : Nat) : TimerLocalState :=
  let stopped := s.currentTimeEntry
  let mid := (memberships.find?
    (fun m => stopped.organizationId = some m.organizationOrgId)).map (·.id)
  let s1 := { s with
              currentMembershipId := mid
              currentTimeEntry := emptyTimeEntry }
  stopMutationLocal s1 { stopped with endT := some (endTime.getD now) }

/-- `startTimer` from `useTimer` (timeEntries.ts lines 225-244): rebuild
the local current entry from the draft fields of the previous one with a
fresh `start` stamp, then hand it (plus `member_id`) to the create
mutation, whose `onMutate` assigns the fresh uuid. -/
def startTimer (s : TimerLocalState) (now : Nat) (freshUuid : String) :
    TimerLocalState :=
  let current := s.currentTimeEntry
  let fresh := { emptyTimeEntry with
                   projectId := current.projectId
                   taskId := current.taskId
                   description := current.description
                   tags := current.tags
                   billable := current.billable
                   start := some now }
  let s1 := { s with currentTimeEntry := fresh }
  let body := { fresh with memberId := s1.currentMembershipId }
  createMutationLocal s1 body freshUuid

/-! ## PKCE code challenge (background script lines 8-40)

`sha256` delegates to `crypto.subtle.digest("SHA-256", ...)` on the
UTF-8 encoding of the verifier; we embed the FIPS 180-4 SHA-256
function over byte lists (`Nat` values below 256), with 32-bit words as
`Nat` reduced modulo `2 ^ 32`.  `base64urlencode` is `btoa` followed by
the three replacements the code performs. -/

/-- Reduce to a 32-bit word. -/
def w32 (x : Nat) : Nat := x % 4294967296

/-- Right rotation of a 32-bit word (input below `2 ^ 32`). -/
def rotr (n x : Nat) : Nat := x / 2 ^ n + x % 2 ^ n * 2 ^ (32 - n)

/-- SHA-256 message-schedule sigma-0. -/
def smallSigma0 (x : Nat) : Nat := rotr 7 x ^^^ rotr 18 x ^^^ x / 2 ^ 3

/-- SHA-256 message-schedule sigma-1. -/
def smallSigma1 (x : Nat) : Nat := rotr 17 x ^^^ rotr 19 x ^^^ x / 2 ^ 10

/-- SHA-256 compression Sigma-0. -/
def bigSigma0 (x : Nat) : Nat := rotr 2 x ^^^ rotr 13 x ^^^ rotr 22 x

/-- SHA-256 compression Sigma-1. -/
def bigSigma1 (x : Nat) : Nat := rotr 6 x ^^^ rotr 11 x ^^^ rotr 25 x

/-- SHA-256 choose function (`¬e` as 32-bit complement). -/
def chVal (e f g : Nat) : Nat := (e &&& f) ^^^ ((4294967295 - e) &&& g)

/-- SHA-256 majority function. -/
def majVal (a b c : Nat) : Nat := (a &&& b) ^^^ (a &&& c) ^^^ (b &&& c)

/-- The 64 SHA-256 round constants (FIPS 180-4, written in decimal). -/
def shaK : List Nat :=
  [1116352408, 1899447441, 3049323471, 3921009573,
   961987163, 1508970993, 2453635748, 2870763221,
   3624381080, 310598401, 607225278, 1426881987,
   1925078388, 2162078206, 2614888103, 3248222580,
   3835390401, 4022224774, 264347078, 604807628,
   770255983, 1249150122, 1555081692, 1996064986,
   2554220882, 2821834349, 2952996808, 3210313671,
   3336571891, 3584528711, 113926993, 338241895,
   666307205, 773529912, 1294757372, 1396182291,
   1695183700, 1986661051, 2177026350, 2456956037,
   2730485921, 2820302411, 3259730800, 3345764771,
   3516065817, 3600352804, 4094571909, 275423344,
   430227734, 506948616, 659060556, 883997877,
   958139571, 1322822218, 1537002063, 1747873779,
   1955562222, 2024104815, 2227730452, 2361852424,
   2428436474, 2756734187, 3204031479, 3329325298]

/-- Big-endian byte serialisation of `x` on `n` bytes. -/
def bytesBE : Nat → Nat → List Nat
  | 0, _ => []
  | n + 1, x => bytesBE n (x / 256) ++ [x % 256]

/-- SHA-256 padding: append `0x80`, zeros up to 56 mod 64, and the
64-bit big-endian bit length. -/
def padMsg (msg : List Nat) : List Nat :=
  let len := msg.length
  let k := (120 - (len + 1) % 64) % 64
  msg ++ [0x80] ++ List.replicate k 0 ++ bytesBE 8 (len * 8)

/-- Big-endian 32-bit words from groups of four bytes. -/
def toWords : List Nat → List Nat
  | b1 :: b2 :: b3 :: b4 :: rest =>
    (((b1 * 256 + b2) * 256 + b3) * 256 + b4) :: toWords rest
  | _ => []

/-- Extend the 16 block words to the 64-entry message schedule. -/
def scheduleW (w16 : List Nat) : Array Nat :=
  (List.range 48).foldl
    (fun acc _ =>
      let n := acc.size
      acc.push (w32 (smallSigma1 (acc.getD (n - 2) 0) + acc.getD (n - 7) 0 +
                     smallSigma0 (acc.getD (n - 15) 0) + acc.getD (n - 16) 0)))
    w16.toArray

/-- The eight SHA-256 working variables. -/
structure Hash8 where
  a : Nat
  b : Nat
  c : Nat
  d : Nat
  e : Nat
  f : Nat
  g : Nat
  h : Nat
deriving DecidableEq

/-- One SHA-256 compression round with the given constant and schedule
word. -/
def roundStep (s : Hash8) (kw : Nat × Nat) : Hash8 :=
  let t1 := w32 (s.h + bigSigma1 s.e + chVal s.e s.f s.g + kw.1 + kw.2)
  let t2 := w32 (bigSigma0 s.a + majVal s.a s.b s.c)
  { a := w32 (t1 + t2)
    b := s.a
    c := s.b
    d := s.c
    e := w32 (s.d + t1)
    f := s.e
    g := s.f
    h := s.g }

/-- SHA-256 initial hash value (FIPS 180-4, written in decimal). -/
def shaH0 : Hash8 :=
  ⟨1779033703, 3144134277, 1013904242, 2773480762,
   1359893119, 2600822924, 528734635, 1541459225⟩

/-- Compress one 64-byte block into the running hash. -/
def compressBlock (hs : Hash8) (block : List Nat) : Hash8 :=
  let ws := scheduleW (toWords block)
  let s := (shaK.zip ws.toList).foldl roundStep hs
  { a := w32 (hs.a + s.a)
    b := w32 (hs.b + s.b)
    c := w32 (hs.c + s.c)
    d := w32 (hs.d + s.d)
    e := w32 (hs.e + s.e)
    f := w32 (hs.f + s.f)
    g := w32 (hs.g + s.g)
    h := w32 (hs.h + s.h) }

/-- Split a list into 64-byte blocks; the fuel bounds the number of
blocks (each step consumes 64 elements, so `l.length` always
suffices). -/
def chunksAux : Nat → List Nat → List (List Nat)
  | 0, _ => []
  | _, [] => []
  | fuel + 1, l => l.take 64 :: chunksAux fuel (l.drop 64)

/-- Split a padded message into its 64-byte blocks. -/
def chunks64 (l : List Nat) : List (List Nat) := chunksAux l.length l

/-- SHA-256 of a byte list, as 32 output bytes. -/
def sha256Bytes (msg : List Nat) : List Nat :=
  let fin := (chunks64 (padMsg msg)).foldl compressBlock shaH0
  bytesBE 4 fin.a ++ bytesBE 4 fin.b ++ bytesBE 4 fin.c ++ bytesBE 4 fin.d ++
  bytesBE 4 fin.e ++ bytesBE 4 fin.f ++ bytesBE 4 fin.g ++ bytesBE 4 fin.h

/-- UTF-8 encoding of one Unicode scalar value (`TextEncoder`). -/
def utf8Char (n : Nat) : List Nat :=
  if n < 128 then [n]
  else if n < 2048 then [192 + n / 64, 128 + n % 64]
  else if n < 65536 then [224 + n / 4096, 128 + n / 64 % 64, 128 + n % 64]
  else [240 + n / 262144, 128 + n / 4096 % 64, 128 + n / 64 % 64, 128 + n % 64]

/-- `new TextEncoder().encode(s)`: UTF-8 bytes of the string. -/
def utf8Encode (s : String) : List Nat :=
  (s.toList.map (fun c => utf8Char c.toNat)).flatten

/-- The standard base64 alphabet used by `btoa`. -/
def b64Std : List Char :=
  "ABCDEFGHIJKLMNOPQRSTUVWXYZabcdefghijklmnopqrstuvwxyz0123456789+/".toList

/-- The URL-safe base64 alphabet. -/
def b64Url : List Char :=
  "ABCDEFGHIJKLMNOPQRSTUVWXYZabcdefghijklmnopqrstuvwxyz0123456789-_".toList

/-- Standard alphabet lookup (indices produced below are below 64). -/
def stdAlpha (n : Nat) : Char := b64Std.getD (n % 64) 'A'

/-- URL-safe alphabet lookup. -/
def urlAlpha (n : Nat) : Char := b64Url.getD (n % 64) 'A'

/-- `btoa` on a byte list: standard base64 with `'='` padding,
processing three input bytes into four output characters. -/
def btoaChars : List Nat → List Char
  | [] => []
  | [b1] => [stdAlpha (b1 / 4), stdAlpha (b1 % 4 * 16), '=', '=']
  | [b1, b2] =>
    [stdAlpha (b1 / 4), stdAlpha (b1 % 4 * 16 + b2 / 16),
     stdAlpha (b2 % 16 * 4), '=']
  | b1 :: b2 :: b3 :: rest =>
    stdAlpha (b1 / 4) :: stdAlpha (b1 % 4 * 16 + b2 / 16) ::
    stdAlpha (b2 % 16 * 4 + b3 / 64) :: stdAlpha (b3 % 64) :: btoaChars rest

/-- The `'+'` to `'-'` and `'/'` to `'_'` replacements from
`base64urlencode`. -/
def replChar (c : Char) : Char :=
  if c = '+' then '-' else if c = '/' then '_' else c

/-- The `=+$` trailing-padding strip from `base64urlencode`. -/
def stripTrailEq : List Char → List Char
  | [] => []
  | c :: cs =>
    match stripTrailEq cs with
    | [] => if c = '=' then [] else [c]
    | r => c :: r

/-- `base64urlencode` from the background script: `btoa`, then the two
character replacements, then stripping trailing `'='`. -/
def base64urlencode (bytes : List Nat) : String :=
  String.mk (stripTrailEq (List.map replChar (btoaChars bytes)))

/-- The code challenge the background flow derives from a verifier:
`base64urlencode(await sha256(verifier))`. -/
def pkceCodeChallenge (verifier : String) : String :=
  base64urlencode (sha256Bytes (utf8Encode verifier))

/-- Direct URL-safe-base64-no-padding encoder, written from the spec's
words ("URL-safe base64 encoding, without padding") for comparison with
the code's btoa-and-replace formulation. -/
def specBase64UrlNoPad : List Nat → List Char
  | [] => []
  | [b1] => [urlAlpha (b1 / 4), urlAlpha (b1 % 4 * 16)]
  | [b1, b2] =>
    [urlAlpha (b1 / 4), urlAlpha (b1 % 4 * 16 + b2 / 16),
     urlAlpha (b2 % 16 * 4)]
  | b1 :: b2 :: b3 :: rest =>
    urlAlpha (b1 / 4) :: urlAlpha (b1 % 4 * 16 + b2 / 16) ::
    urlAlpha (b2 % 16 * 4 + b3 / 64) :: urlAlpha (b3 % 64) ::
    specBase64UrlNoPad rest

/-! ## Helper lemmas -/

/-- A call while a refresh promise is in flight returns that promise,
leaves the state untouched and starts no network exchange. -/
theorem refresh_join (s : OAuthProcState) (p n : Nat)
    (h : s.refreshPromise = some p) :
    refreshAccessToken s n = (s, .pending p, 0) := by
  simp [refreshAccessToken, h]

/-- The URL-safe alphabet contains no padding character. -/
theorem urlAlpha_ne_pad (n : Nat) : urlAlpha n ≠ '=' := by
  have h : n % 64 < 64 := Nat.mod_lt _ (by norm_num)
  have hall : ∀ m, m < 64 → b64Url.getD m 'A' ≠ '=' := by decide
  exact hall _ h

/-- The two character replacements turn the standard alphabet into the
URL-safe one, index by index. -/
theorem replChar_stdAlpha (n : Nat) : replChar (stdAlpha n) = urlAlpha n := by
  have h : n % 64 < 64 := Nat.mod_lt _ (by norm_num)
  have hall : ∀ m, m < 64 →
      replChar (b64Std.getD m 'A') = b64Url.getD m 'A' := by decide
  exact hall _ h

/-- Stripping trailing padding from an all-padding list empties it. -/
theorem stripTrailEq_all_pads (ys : List Char) (hy : ∀ c ∈ ys, c = '=') :
    stripTrailEq ys = [] := by
  induction ys with
  | nil => rfl
  | cons c t ih =>
    have ht := ih (fun d hd => hy d (List.mem_cons_of_mem _ hd))
    have hc := hy c (List.mem_cons_self c t)
    simp [stripTrailEq, ht, hc]

/-- Stripping trailing padding from padding-free content followed by
pure padding returns the content. -/
theorem stripTrailEq_pads (xs ys : List Char) (hx : ∀ c ∈ xs, c ≠ '=')
    (hy : ∀ c ∈ ys, c = '=') : stripTrailEq (xs ++ ys) = xs := by
  induction xs with
  | nil => simpa using stripTrailEq_all_pads ys hy
  | cons c t ih =>
    have hc : c ≠ '=' := hx c (List.mem_cons_self c t)
    have ih' := ih (fun d hd => hx d (List.mem_cons_of_mem _ hd))
    cases t with
    | nil => simp_all [stripTrailEq]
    | cons d t' => simp_all [stripTrailEq]

/-- When the tail keeps some content after stripping, stripping
distributes over the front part unchanged. -/
theorem stripTrailEq_append_left (xs ys : List Char)
    (hy : stripTrailEq ys ≠ []) :
    stripTrailEq (xs ++ ys) = xs ++ stripTrailEq ys := by
  induction xs with
  | nil => simp
  | cons c t ih =>
    rw [List.cons_append]
    show stripTrailEq (c :: (t ++ ys)) = c :: (t ++ stripTrailEq ys)
    cases hct : t ++ stripTrailEq ys with
    | nil => exact absurd (List.append_eq_nil.mp hct).2 hy
    | cons a r => simp [stripTrailEq, ih, hct]

/-- The spec-worded encoder never returns an empty encoding of a
nonempty byte list. -/
theorem specB64_ne_nil (bs : List Nat) (h : bs ≠ []) :
    specBase64UrlNoPad bs ≠ [] := by
  rcases bs with _ | ⟨b1, _ | ⟨b2, _ | ⟨b3, rest⟩⟩⟩
  · exact absurd rfl h
  · simp [specBase64UrlNoPad]
  · simp [specBase64UrlNoPad]
  · simp [specBase64UrlNoPad]

/-- Core refinement: `btoa` + replacements + padding strip equals the
direct URL-safe-no-padding encoder, for every byte list. -/
theorem b64_repl_strip (n : Nat) :
    ∀ bs : List Nat, bs.length ≤ n →
      stripTrailEq (List.map replChar (btoaChars bs))
        = specBase64UrlNoPad bs := by
  induction n with
  | zero =>
    intro bs h
    have : bs = [] := List.eq_nil_of_length_eq_zero (Nat.le_zero.mp h)
    subst this; rfl
  | succ n ih =>
    intro bs h
    rcases bs with _ | ⟨b1, _ | ⟨b2, _ | ⟨b3, rest⟩⟩⟩
    · rfl
    · -- one leftover byte: two content chars then two pads
      simp only [btoaChars, List.map_cons, List.map_nil, replChar_stdAlpha]
      have hrepl : replChar '=' = '=' := by decide
      rw [hrepl]
      have := stripTrailEq_pads
          [urlAlpha (b1 / 4), urlAlpha (b1 % 4 * 16)] ['=', '=']
          (by intro c hc
              simp only [List.mem_cons, List.not_mem_nil, or_false] at hc
              rcases hc with h1 | h1 <;> exact h1 ▸ urlAlpha_ne_pad _)
          (by intro c hc
              simp only [List.mem_cons, List.not_mem_nil, or_false] at hc
              rcases hc with h1 | h1 <;> exact h1)
      simpa [specBase64UrlNoPad] using this
    · -- two leftover bytes: three content chars then one pad
      simp only [btoaChars, List.map_cons, List.map_nil, replChar_stdAlpha]
      have hrepl : replChar '=' = '=' := by decide
      rw [hrepl]
      have := stripTrailEq_pads
          [urlAlpha (b1 / 4), urlAlpha (b1 % 4 * 16 + b2 / 16),
           urlAlpha (b2 % 16 * 4)] ['=']
          (by intro c hc
              simp only [List.mem_cons, List.not_mem_nil, or_false] at hc
              rcases hc with h1 | h1 | h1 <;> exact h1 ▸ urlAlpha_ne_pad _)
          (by intro c hc
              simp only [List.mem_cons, List.not_mem_nil, or_false] at hc
              exact hc)
      simpa [specBase64UrlNoPad] using this
    · -- a full chunk of three bytes plus the remainder
      have hlen : rest.length ≤ n := by
        simp only [List.length_cons] at h; omega
      have ihr := ih rest hlen
      rcases Decidable.em (rest = []) with hr | hr
      · subst hr
        simp only [btoaChars, List.map_cons, List.map_nil, replChar_stdAlpha]
        have := stripTrailEq_pads
            [urlAlpha (b1 / 4), urlAlpha (b1 % 4 * 16 + b2 / 16),
             urlAlpha (b2 % 16 * 4 + b3 / 64), urlAlpha (b3 % 64)] []
            (by intro c hc
                simp only [List.mem_cons, List.not_mem_nil, or_false] at hc
                rcases hc with h1 | h1 | h1 | h1 <;> exact h1 ▸ urlAlpha_ne_pad _)
            (by intro c hc; exact absurd hc (List.not_mem_nil c))
        simpa [specBase64UrlNoPad] using this
      · have hne : stripTrailEq (List.map replChar (btoaChars rest)) ≠ [] := by
          rw [ihr]; exact specB64_ne_nil rest hr
        simp only [btoaChars, List.map_cons, replChar_stdAlpha]
        have happ :
            urlAlpha (b1 / 4) :: urlAlpha (b1 % 4 * 16 + b2 / 16) ::
              urlAlpha (b2 % 16 * 4 + b3 / 64) :: urlAlpha (b3 % 64) ::
              List.map replChar (btoaChars rest)
            = [urlAlpha (b1 / 4), urlAlpha (b1 % 4 * 16 + b2 / 16),
               urlAlpha (b2 % 16 * 4 + b3 / 64), urlAlpha (b3 % 64)] ++
              List.map replChar (btoaChars rest) := rfl
        rw [happ, stripTrailEq_append_left _ _ hne, ihr]
        simp [specBase64UrlNoPad]

/-- `takeSeg` consumes exactly a slash-free block when a slash follows. -/
theorem takeSeg_append_slash (xs r : List Char) (hx : '/' ∉ xs) :
    takeSeg (xs ++ '/' :: r) = (xs, '/' :: r) := by
  induction xs with
  | nil => simp [takeSeg]
  | cons c t ih =>
    have hc : c ≠ '/' := fun hh => hx (hh ▸ List.mem_cons_self c t)
    have ht : '/' ∉ t := fun hh => hx (List.mem_cons_of_mem _ hh)
    simp [takeSeg, hc, ih ht]

/-- `takeSeg` consumes a whole slash-free list. -/
theorem takeSeg_no_slash (xs : List Char) (hx : '/' ∉ xs) :
    takeSeg xs = (xs, []) := by
  induction xs with
  | nil => rfl
  | cons c t ih =>
    have hc : c ≠ '/' := fun hh => hx (hh ▸ List.mem_cons_self c t)
    have ht : '/' ∉ t := fun hh => hx (List.mem_cons_of_mem _ hh)
    simp [takeSeg, hc, ih ht]

/-- Stripping a literal from itself plus a remainder yields the
remainder. -/
theorem stripLit_append (lit r : List Char) :
    stripLit lit (lit ++ r) = some r := by
  induction lit with
  | nil => rfl
  | cons c t ih => simp [stripLit, ih]

/-- Whenever the Linear issue-page regex accepts a path, the extraction
regex produces a match. -/
theorem linearPathMatch_isSome (cs : List Char)
    (h : isLinearIssuePathChars cs = true) :
    (linearPathMatch cs).isSome = true := by
  unfold isLinearIssuePathChars at h
  unfold linearPathMatch
  split at h
  case h_2 => exact absurd h (by simp)
  case h_1 rest =>
    rcases hts : takeSeg rest with ⟨ws, r1⟩
    simp only [hts] at h ⊢
    by_cases hws : ws = []
    · simp [hws] at h
    · simp only [if_neg hws] at h ⊢
      cases hsl : stripLit ("/issue/".toList) r1 with
      | none => rw [hsl] at h; exact absurd h (by simp)
      | some r2 =>
        rw [hsl] at h
        rcases hk : takeSeg r2 with ⟨key, r3⟩
        simp only [hk] at h ⊢
        have hkey : key ≠ [] := by simpa using h
        rw [if_neg hkey]
        rcases r3 with _ | ⟨a, t⟩
        · simp
        · by_cases ha : a = '/'
          · subst ha
            by_cases ht : t = [] <;> simp [ht]
          · split <;> simp_all

/-! ## Claim theorems -/

/-- C1.  Single-flight refresh: in any process state with a refresh
already in flight (promise `p` installed), every further
`refreshAccessToken()` call — hence any number of concurrent callers —
changes nothing, initiates zero network exchanges, and hands every
caller the same pending promise `p`, so all of them observe the
identical resolved or rejected outcome of that single in-flight
exchange. -/
theorem refresh_single_flight (s : OAuthProcState) (p : Nat)
    (pids : List Nat) (h : s.refreshPromise = some p) :
    refreshCallsSeq s pids
      = (s, List.replicate pids.length (.pending p), 0) := by
  induction pids with
  | nil => simp [refreshCallsSeq]
  | cons q qs ih =>
    simp [refreshCallsSeq, refresh_join s p q h, ih, List.replicate_succ]

/-- Witness for C1 at a concrete in-flight state and three callers. -/
theorem refresh_single_flight_witness :
    refreshCallsSeq ⟨"at", "rt", some "at", some "rt", some 7⟩ [1, 2, 3]
      = (⟨"at", "rt", some "at", some "rt", some 7⟩,
         List.replicate 3 (.pending 7), 0) :=
  refresh_single_flight ⟨"at", "rt", some "at", some "rt", some 7⟩ 7 [1, 2, 3] rfl

/-- C2.  With no refresh in flight and an empty refresh token,
`refreshAccessToken()` clears both token cells, removes both keys from
the durable store, throws (authentication failure) and performs no
network exchange. -/
theorem refresh_empty_token_clears (s : OAuthProcState) (n : Nat)
    (h1 : s.refreshPromise = none) (h2 : s.refreshToken = "") :
    refreshAccessToken s n
      = ({ s with accessToken := "", refreshToken := ""
                  storedAccess := none, storedRefresh := none },
         .thrown, 0) := by
  simp [refreshAccessToken, h1, h2]

/-- Witness for C2 at a concrete logged-out state. -/
theorem refresh_empty_token_clears_witness :
    refreshAccessToken ⟨"stale", "", some "stale", some "", none⟩ 5
      = (⟨"", "", none, none, none⟩, .thrown, 0) :=
  refresh_empty_token_clears ⟨"stale", "", some "stale", some "", none⟩ 5 rfl rfl

/-- C3.  The HTTP wrapper's 401 handling: a first 401 with a successful
refresh issues exactly one retry carrying the refreshed bearer token,
and the retried response — handled with the `_retry` mark set — is
final: a success resolves, a second 401 (or any error) is rejected to
the caller; a failed refresh rejects with the refresh error and no
retry; non-401 errors and successes never refresh or retry. -/
theorem api_401_single_retry (tok : String) (send : String → HttpResp)
    (v s : Nat) :
    (interceptFirst (.err 401) (some tok) send
        = ⟨interceptRetried (send tok), some tok⟩) ∧
    (send tok = .ok v →
      (interceptFirst (.err 401) (some tok) send).outcome = .success v) ∧
    (send tok = .err 401 →
      (interceptFirst (.err 401) (some tok) send).outcome = .failed 401) ∧
    (interceptFirst (.err 401) none send = ⟨.refreshFailed, none⟩) ∧
    (s ≠ 401 → interceptFirst (.err s) (some tok) send = ⟨.failed s, none⟩) ∧
    (interceptFirst (.ok v) (some tok) send = ⟨.success v, none⟩) := by
  refine ⟨rfl, ?_, ?_, rfl, ?_, rfl⟩
  · intro h; simp [interceptFirst, h, interceptRetried]
  · intro h; simp [interceptFirst, h, interceptRetried]
  · intro h; simp [interceptFirst, h]

/-- Witness for C3: concrete 401-then-success and 401-then-401 runs. -/
theorem api_401_single_retry_witness :
    (interceptFirst (.err 401) (some "t2") (fun _ => .ok 9)).outcome
        = .success 9 ∧
    (interceptFirst (.err 401) (some "t2") (fun _ => .err 401)).outcome
        = .failed 401 ∧
    interceptFirst (.err 500) (some "t2") (fun _ => .ok 9)
        = ⟨.failed 500, none⟩ :=
  ⟨(api_401_single_retry "t2" (fun _ => .ok 9) 9 500).2.1 rfl,
   (api_401_single_retry "t2" (fun _ => .err 401) 9 500).2.2.1 rfl,
   (api_401_single_retry "t2" (fun _ => .ok 9) 9 500).2.2.2.2.1 (by decide)⟩

/-- C4.  OAuth callback with a state mismatch or missing code: the flow
responds with a failure and durable storage is unchanged — no tokens
are persisted for that login attempt. -/
theorem oauth_callback_mismatch_no_persist (oauthState : String)
    (p : CallbackParams) (exchange : Option (String × String))
    (st : TokenStorage)
    (h : p.state ≠ some oauthState ∨ truthyStr p.code = false) :
    handleOAuthCallback oauthState p exchange st = (.failure, st) := by
  unfold handleOAuthCallback
  split_ifs with h1 h2
  · rfl
  · rfl
  · exact absurd h (by simpa using h2)

/-- Witness for C4: mismatched state at a concrete callback. -/
theorem oauth_callback_mismatch_no_persist_witness :
    handleOAuthCallback "good-state"
        ⟨some "authcode", some "evil-state", none⟩
        (some ("a", "r")) ⟨none, none⟩
      = (.failure, ⟨none, none⟩) :=
  oauth_callback_mismatch_no_persist "good-state"
    ⟨some "authcode", some "evil-state", none⟩ (some ("a", "r")) ⟨none, none⟩
    (Or.inl (by decide))

/-- C6.  The Linear scenario URL: extraction on
`/acme/issue/ST-583/fix-bug` yields issue id `ST-583`, title `fix-bug`
and project key `ST` (the leading uppercase run before the dash). -/
theorem linear_extract_st583 :
    getLinearIssueInfo "/acme/issue/ST-583/fix-bug"
        "https://linear.app/acme/issue/ST-583/fix-bug"
      = some ⟨"ST-583", "fix-bug", "ST",
          "https://linear.app/acme/issue/ST-583/fix-bug"⟩ := by decide

/-- C7.  `isIssuePage` is a pure function of pathname and query for all
three platforms; it rejects platform home and backlog/list paths and
accepts the exercised variants: Jira board view with `selectedIssue`
and `/browse/KEY`, Plane `/ws/browse/KEY` and
`/ws/projects/id/issues/`, Linear `/ws/issue/KEY`. -/
theorem issue_page_url_variants :
    isJiraIssuePage "/jira/software/projects/PROJ/boards/1"
        "?selectedIssue=PROJ-42" = true ∧
    isJiraIssuePage "/browse/PROJ-42" "" = true ∧
    isJiraIssuePage "/" "" = false ∧
    isJiraIssuePage "/jira/software/projects/PROJ/backlog" "" = false ∧
    isJiraIssuePage "/jira/software/projects/PROJ/boards/1" "" = false ∧
    isPlaneIssuePage "/acme/browse/WEB-12" = true ∧
    isPlaneIssuePage "/acme/projects/1234/issues/" = true ∧
    isPlaneIssuePage "/" = false ∧
    isPlaneIssuePage "/acme" = false ∧
    isLinearIssuePage "/acme/issue/ST-583/fix-bug" = true ∧
    isLinearIssuePage "/" = false ∧
    isLinearIssuePage "/acme/team/ST/active" = false := by decide

/-- Each tab event preserves the at-most-one-control bound. -/
theorem controlStep_le_one (n : Nat) (e : DomEvent) (h : n ≤ 1) :
    controlStep n e ≤ 1 := by
  cases e with
  | inject skip => simp only [controlStep]; split_ifs <;> omega
  | removeControl => simp only [controlStep]; omega
  | hostRemoves => simp only [controlStep]; omega
  | navigate issue => simp only [controlStep]; split_ifs <;> omega

/-- C8.  At most one injected control per tab: starting from a document
with at most one control element (in particular an empty one), any
sequence of navigation, mutation, injection and removal events keeps
the count of elements with the fixed control id at most one at every
intermediate state (each single step preserves the bound), and an
injection that finds the element already present creates no second
one. -/
theorem single_injected_control :
    (∀ (n : Nat) (e : DomEvent), n ≤ 1 → controlStep n e ≤ 1) ∧
    (∀ (evs : List DomEvent) (n0 : Nat), n0 ≤ 1 →
      List.foldl controlStep n0 evs ≤ 1) ∧
    controlStep 1 (.inject false) = 1 := by
  refine ⟨controlStep_le_one, ?_, rfl⟩
  intro evs
  induction evs with
  | nil => intro n0 h; simpa using h
  | cons e es ih =>
    intro n0 h
    exact ih (controlStep n0 e) (controlStep_le_one n0 e h)

/-- Witness for C8 on a concrete event sequence from the empty document. -/
theorem single_injected_control_witness :
    List.foldl controlStep 0
        [.inject false, .navigate true, .hostRemoves, .inject true,
         .inject false, .navigate false] ≤ 1 :=
  single_injected_control.2.1
    [.inject false, .navigate true, .hostRemoves, .inject true,
     .inject false, .navigate false] 0 (by decide)

/-- C9.  `stop()` immediately followed by `start()`: the stop mutation
is handed the stopped entry with its `end` stamped `t1`, and the new
optimistic current entry carries the freshly generated uuid as id —
distinct from the stopped entry's id — and a `start` stamp `t2 ≥ t1`;
the storage-backed current entry's id (`""`) also differs from the
stopped entry's non-empty id. -/
theorem timer_stop_then_start (s : TimerLocalState)
    (mships : List MembershipM) (uuid : String) (t1 t2 : Nat)
    (hid : s.currentTimeEntry.id ≠ "")
    (hfresh : uuid ≠ s.currentTimeEntry.id) (hle : t1 ≤ t2) :
    ∃ e u,
      (startTimer (stopTimer s mships none t1) t2 uuid).cacheCurrent
          = some e ∧
      (stopTimer s mships none t1).sentStops.head? = some u ∧
      u.id = s.currentTimeEntry.id ∧
      u.endT = some t1 ∧
      e.id = uuid ∧
      e.id ≠ s.currentTimeEntry.id ∧
      e.start = some t2 ∧
      (startTimer (stopTimer s mships none t1) t2 uuid).currentTimeEntry.id
          ≠ s.currentTimeEntry.id ∧
      t1 ≤ t2 := by
  refine ⟨_, _, rfl, rfl, rfl, rfl, rfl, hfresh, rfl, ?_, hle⟩
  exact fun hcontra => hid hcontra.symm

/-- Witness for C9 at a concrete running entry and clock instants. -/
theorem timer_stop_then_start_witness :
    ∃ e u,
      (startTimer (stopTimer
          { currentTimeEntry :=
              { emptyTimeEntry with id := "entry-1", start := some 3 }
            lastTimeEntry := emptyTimeEntry
            currentMembershipId := some "m1"
            currentOrganizationId := some "o1"
            cacheCurrent := none
            sentStops := []
            sentCreates := [] } [] none 5) 7 "uuid-9").cacheCurrent
          = some e ∧
      (stopTimer
          { currentTimeEntry :=
              { emptyTimeEntry with id := "entry-1", start := some 3 }
            lastTimeEntry := emptyTimeEntry
            currentMembershipId := some "m1"
            currentOrganizationId := some "o1"
            cacheCurrent := none
            sentStops := []
            sentCreates := [] } [] none 5).sentStops.head? = some u ∧
      u.id = "entry-1" ∧
      u.endT = some 5 ∧
      e.id = "uuid-9" ∧
      e.id ≠ "entry-1" ∧
      e.start = some 7 ∧
      (startTimer (stopTimer
          { currentTimeEntry :=
              { emptyTimeEntry with id := "entry-1", start := some 3 }
            lastTimeEntry := emptyTimeEntry
            currentMembershipId := some "m1"
            currentOrganizationId := some "o1"
            cacheCurrent := none
            sentStops := []
            sentCreates := [] } [] none 5) 7 "uuid-9").currentTimeEntry.id
          ≠ "entry-1" ∧
      (5 : Nat) ≤ 7 :=
  timer_stop_then_start
    { currentTimeEntry := { emptyTimeEntry with id := "entry-1", start := some 3 }
      lastTimeEntry := emptyTimeEntry
      currentMembershipId := some "m1"
      currentOrganizationId := some "o1"
      cacheCurrent := none
      sentStops := []
      sentCreates := [] } [] "uuid-9" 5 7 (by decide) (by decide) (by decide)

set_option maxRecDepth 400000 in
/-- C5.  The PKCE code challenge: for every verifier it equals the
URL-safe base64 encoding without padding (plus-to-dash, slash-to-
underscore, trailing padding stripped) of the SHA-256 digest of the
verifier's UTF-8 bytes; it is deterministic; and it reproduces the
RFC 7636 appendix B test vector. -/
theorem pkce_challenge_correct :
    (∀ v : String, pkceCodeChallenge v
        = String.mk (specBase64UrlNoPad (sha256Bytes (utf8Encode v)))) ∧
    (∀ v : String, pkceCodeChallenge v = pkceCodeChallenge v) ∧
    pkceCodeChallenge "dBjftJeZ4CVP-mB92K27uhbUJU1p1r_wW1gFWFOEjXk"
      = "E9Melhoa2OwvFrEMTJguCHaoeK1t8URWbuGJSstw-cM" := by
  refine ⟨?_, fun _ => rfl, by decide⟩
  intro v
  unfold pkceCodeChallenge base64urlencode
  rw [b64_repl_strip (sha256Bytes (utf8Encode v)).length _ le_rfl]

/-- C10.  Linear identity extraction is total on issue pages: whenever
the page check accepts the URL, extraction returns a value; on
`/workspace/issue/key` with no trailing slug the title is the empty
string (not null); and a key without a leading uppercase run followed
by a dash yields the empty project key. -/
theorem linear_identity_total :
    (∀ (p href : String), isLinearIssuePage p = true →
      (getLinearIssueInfo p href).isSome = true) ∧
    (∀ (ws key : List Char) (href : String),
      ws ≠ [] → '/' ∉ ws → key ≠ [] → '/' ∉ key →
      getLinearIssueInfo
          (String.mk ('/' :: (ws ++ '/' :: 'i' :: 's' :: 's' :: 'u' :: 'e' :: '/' :: key)))
          href
        = some ⟨String.mk key, "", String.mk (linearProjectKey key), href⟩) ∧
    (∀ key : List Char,
      (upperRun key).1 = [] ∨ (upperRun key).2.head? ≠ some '-' →
      linearProjectKey key = []) := by
  refine ⟨?_, ?_, ?_⟩
  · intro p href h
    unfold getLinearIssueInfo
    rw [show isLinearIssuePage p = true from h]
    have hm := linearPathMatch_isSome p.toList h
    cases hmm : linearPathMatch p.toList with
    | none => rw [hmm] at hm; simp at hm
    | some val =>
      rcases val with ⟨ws, key, t?⟩
      simp [hmm]
  · intro ws key href hws hnw hkey hnk
    have hts : takeSeg (ws ++ '/' :: 'i' :: 's' :: 's' :: 'u' :: 'e' :: '/' :: key)
        = (ws, '/' :: 'i' :: 's' :: 's' :: 'u' :: 'e' :: '/' :: key) :=
      takeSeg_append_slash ws _ hnw
    have hsl : stripLit ("/issue/".toList)
          ('/' :: 'i' :: 's' :: 's' :: 'u' :: 'e' :: '/' :: key) = some key :=
      stripLit_append ("/issue/".toList) key
    have hk2 : takeSeg key = (key, []) := takeSeg_no_slash key hnk
    have hpage : isLinearIssuePathChars
        ('/' :: (ws ++ '/' :: 'i' :: 's' :: 's' :: 'u' :: 'e' :: '/' :: key)) = true := by
      unfold isLinearIssuePathChars
      simp only [hts, hsl, hk2]
      simp [hws, hkey]
    have hmatch : linearPathMatch
        ('/' :: (ws ++ '/' :: 'i' :: 's' :: 's' :: 'u' :: 'e' :: '/' :: key))
        = some (ws, key, none) := by
      unfold linearPathMatch
      simp only [hts, hsl, hk2]
      simp [hws, hkey]
    unfold getLinearIssueInfo
    rw [show isLinearIssuePage
        (String.mk ('/' :: (ws ++ '/' :: 'i' :: 's' :: 's' :: 'u' :: 'e' :: '/' :: key)))
        = true from hpage]
    rw [show (String.mk
        ('/' :: (ws ++ '/' :: 'i' :: 's' :: 's' :: 'u' :: 'e' :: '/' :: key))).toList
        = '/' :: (ws ++ '/' :: 'i' :: 's' :: 's' :: 'u' :: 'e' :: '/' :: key) from rfl]
    rw [hmatch]
    rfl
  · intro key h
    unfold linearProjectKey
    rcases hur : upperRun key with ⟨run, rest⟩
    rw [hur] at h
    simp only [] at h ⊢
    rcases rest with _ | ⟨a, t⟩
    · rfl
    · by_cases ha : a = '-'
      · subst ha
        rcases h with h | h
        · simp [h]
        · simp at h
      · split <;> simp_all

/-- Witness for C10 at a concrete page, path and key. -/
theorem linear_identity_total_witness :
    (getLinearIssueInfo "/acme/issue/X17" "u1").isSome = true ∧
    getLinearIssueInfo
        (String.mk ('/' :: ("w".toList ++ '/' :: 'i' :: 's' :: 's' :: 'u' :: 'e' :: '/' :: "KEY".toList)))
        "u2"
      = some ⟨"KEY", "", String.mk (linearProjectKey "KEY".toList), "u2"⟩ ∧
    linearProjectKey "st-5".toList = [] :=
  ⟨linear_identity_total.1 "/acme/issue/X17" "u1" (by decide),
   linear_identity_total.2.1 "w".toList "KEY".toList "u2"
     (by decide) (by decide) (by decide) (by decide),
   linear_identity_total.2.2 "st-5".toList (Or.inl (by decide))⟩


end Solidtime
